import Mathlib

/-!
Verification of the apex-utils repository (ApexSOQLExtractor.py, SOQLExplainPlan.py).

Texts are shallowly embedded as `List Char`.  Each Python regex used by the
source is embedded as a scanner over character lists that is faithful to the
CPython `re` semantics for that particular pattern (leftmost, non-overlapping
matches; non-greedy parts take the shortest extension; `\s`, `\w` and
case-folding are modelled at their ASCII meaning, which is what the patterns
use on the repository's inputs).  Where a scanner consumes a variable amount
of input per step, it is driven by a fuel argument initialised to the length
of the input; each step consumes at least one character, so the fuel never
runs out.
-/

namespace ApexUtils

/-- Convert a string literal to the `List Char` representation used throughout. -/
def toL (s : String) : List Char := s.toList

/-- Python's `str.lower()` restricted to ASCII, applied characterwise. -/
def lowerL (l : List Char) : List Char := l.map Char.toLower

/-- Python regex `\s` (ASCII): space, tab, newline, carriage return, vertical tab, form feed. -/
def isSpaceC (c : Char) : Bool :=
  c == ' ' || c == '\t' || c == '\n' || c == '\r' || c == '\x0b' || c == '\x0c'

/-- Python regex `\w` (ASCII): letters, digits, underscore. -/
def isWordC (c : Char) : Bool := c.isAlphanum || c == '_'

/-- A single or double quote, the character class used by the SOSL pattern. -/
def isQuoteC (c : Char) : Bool := c == '\'' || c == '"'

/-- The character set passed to `str.strip` in `clean_soql`. -/
def isBr (c : Char) : Bool := c == '[' || c == ']'

/-- Python's `':' in s` membership test. -/
def hasColon (l : List Char) : Bool := l.any (fun c => c == ':')

/-- Python's `sep.join(words)`. -/
def joinSep (sep : List Char) : List (List Char) → List Char
  | [] => []
  | [w] => w
  | w :: x :: ws => w ++ sep ++ joinSep sep (x :: ws)

/-- Helper for `splitWs`: `cur` holds the current word, reversed. -/
def splitWsAux : List Char → List Char → List (List Char)
  | [], cur => if cur.isEmpty then [] else [cur.reverse]
  | c :: r, cur =>
    if isSpaceC c then
      (if cur.isEmpty then splitWsAux r [] else cur.reverse :: splitWsAux r [])
    else splitWsAux r (c :: cur)

/-- Python's `s.split()`: maximal runs of non-whitespace characters. -/
def splitWs (l : List Char) : List (List Char) := splitWsAux l []

/-- Python's `' '.join(s.split())`, the whitespace normalization used by the extractor. -/
def normWs (l : List Char) : List Char := joinSep [' '] (splitWs l)

/-- Length of the leading whitespace run (`\s*` with maximal munch). -/
def wsRun (l : List Char) : Nat := (l.takeWhile isSpaceC).length

/-- Case-insensitive literal match at the head: `kw` must already be lowercase. -/
def litCI (kw : List Char) (l : List Char) : Bool := lowerL (l.take kw.length) == kw

/-! ## SOQL detection: `re.compile(r'\[\s*SELECT.*?\]', re.IGNORECASE | re.DOTALL)` -/

/--
Attempt to match the SOQL pattern at the head of `r`, returning the length of
the match.  After `[` the `\s*` run is forced to be maximal (SELECT starts
with a non-space character), and the non-greedy `.*?\]` ends at the first
following `]` (DOTALL: `.` also matches newlines).
-/
def soqlMatchAt : List Char → Option Nat
  | [] => none
  | c :: rest =>
    if c == '[' then
      let w := wsRun rest
      let r1 := rest.drop w
      if litCI (toL "select") r1 then
        match (r1.drop 6).findIdx? (fun x => x == ']') with
        | some k => some (1 + w + 6 + k + 1)
        | none => none
      else none
    else none

/--
`finditer` for the SOQL pattern: scan left to right, record `(start, match)`,
continue after each match (non-overlapping).  `i` is the absolute offset of
the current suffix; fuel starts at the text length.
-/
def soqlGo : Nat → List Char → Nat → List (Nat × List Char)
  | 0, _, _ => []
  | _, [], _ => []
  | f + 1, c :: rest, i =>
    match soqlMatchAt (c :: rest) with
    | some L => (i, (c :: rest).take L) :: soqlGo f ((c :: rest).drop L) (i + L)
    | none => soqlGo f rest (i + 1)

/-- All SOQL matches of a file text, as `(start offset, matched text)` pairs. -/
def soqlFindIter (l : List Char) : List (Nat × List Char) := soqlGo l.length l 0

/--
`extract_details_from_file`, SOQL part: each match is whitespace-normalized and
paired with `content[:start].count('\n') + 1`.
-/
def soql_results (content : List Char) : List (List Char × Nat) :=
  (soqlFindIter content).map fun p => (normWs p.2, (content.take p.1).count '\n' + 1)

/-! ## SOSL detection:
`re.compile(r'FIND\s+[\'"].+?[\'"]\s+IN\s+ALL\s+FIELDS\s+RETURNING.+?;', re.IGNORECASE | re.DOTALL)` -/

/--
Deterministic tail `\s+IN\s+ALL\s+FIELDS\s+RETURNING.+?;` after the closing
quote: every `\s+` run is followed by a letter literal, so maximal munch is
forced; the final non-greedy `.+?;` ends at the first `;` at offset ≥ 1.
Returns the consumed length.
-/
def soslTail2 (r : List Char) : Option Nat :=
  let w1 := wsRun r
  if w1 == 0 then none else
  let r1 := r.drop w1
  if litCI (toL "in") r1 then
    let r2 := r1.drop 2
    let w2 := wsRun r2
    if w2 == 0 then none else
    let r3 := r2.drop w2
    if litCI (toL "all") r3 then
      let r4 := r3.drop 3
      let w3 := wsRun r4
      if w3 == 0 then none else
      let r5 := r4.drop w3
      if litCI (toL "fields") r5 then
        let r6 := r5.drop 6
        let w4 := wsRun r6
        if w4 == 0 then none else
        let r7 := r6.drop w4
        if litCI (toL "returning") r7 then
          let r8 := r7.drop 9
          match (r8.drop 1).findIdx? (fun x => x == ';') with
          | some k => some (w1 + 2 + w2 + 3 + w3 + 6 + w4 + 9 + (k + 1) + 1)
          | none => none
        else none
      else none
    else none
  else none

/--
Backtracking over the candidate closing quotes of the non-greedy `.+?['"]`:
`l` is the quoted body starting at offset `j ≥ 1` after the opening quote.
Returns the length consumed after the opening quote (body, closing quote and
the `soslTail2` part).
-/
def soslAfterQuoteGo : List Char → Nat → Option Nat
  | [], _ => none
  | c :: r, j =>
    if isQuoteC c then
      match soslTail2 r with
      | some t => some (j + 1 + t)
      | none => soslAfterQuoteGo r (j + 1)
    else soslAfterQuoteGo r (j + 1)

/-- Attempt to match the SOSL pattern at the head of `r`, returning the match length. -/
def soslMatchAt (r : List Char) : Option Nat :=
  if litCI (toL "find") r then
    let r1 := r.drop 4
    let w1 := wsRun r1
    if w1 == 0 then none else
    match r1.drop w1 with
    | [] => none
    | q :: body =>
      if isQuoteC q then
        (soslAfterQuoteGo (body.drop 1) 1).map (fun t => 4 + w1 + 1 + t)
      else none
  else none

/-- `findall` scan for the SOSL pattern. -/
def soslGo : Nat → List Char → List (List Char)
  | 0, _ => []
  | _, [] => []
  | f + 1, c :: rest =>
    match soslMatchAt (c :: rest) with
    | some L => (c :: rest).take L :: soslGo f ((c :: rest).drop L)
    | none => soslGo f rest

/-- All SOSL matches in a file text. -/
def sosl_findall (l : List Char) : List (List Char) := soslGo l.length l

/-- `' | '.join(' '.join(m.split()) for m in sosl_matches)`. -/
def sosl_combined (l : List Char) : List Char :=
  joinSep (toL " | ") ((sosl_findall l).map normWs)

/-! ## DML detection: `re.compile(r'\b(insert|update|delete|upsert|merge)\b', re.IGNORECASE)` -/

/-- The DML keywords, lowercase, in the pattern's alternation order. -/
def dmlKeywords : List (List Char) := [toL "insert", toL "update", toL "delete", toL "upsert", toL "merge"]

/-- The `\b` to the left of a keyword: start of text or a non-word character. -/
def wordBoundary : Option Char → Bool
  | none => true
  | some c => !(isWordC c)

/-- The `\b` to the right of a keyword: end of text or a non-word character. -/
def boundaryAfterB : List Char → Bool
  | [] => true
  | c :: _ => !(isWordC c)

/-- Try one keyword at the head of `r`, returning the matched text in its original casing. -/
def dmlTry (r : List Char) (kw : List Char) : Option (List Char) :=
  if lowerL (r.take kw.length) == kw && boundaryAfterB (r.drop kw.length) then
    some (r.take kw.length)
  else none

/-- Attempt a DML keyword match at the head of `r`; `prev` is the preceding character, if any. -/
def dmlMatchAt (prev : Option Char) (r : List Char) : Option (List Char) :=
  if wordBoundary prev then dmlKeywords.findSome? (dmlTry r) else none

/-- `findall` scan for the DML pattern, threading the previous character for `\b`. -/
def dmlGo : Nat → Option Char → List Char → List (List Char)
  | 0, _, _ => []
  | _, _, [] => []
  | f + 1, prev, c :: rest =>
    match dmlMatchAt prev (c :: rest) with
    | some m => m :: dmlGo f (((c :: rest).take m.length).getLast?) ((c :: rest).drop m.length)
    | none => dmlGo f (some c) rest

/-- All whole-word DML keyword occurrences in a file text, original casing. -/
def dml_findall (l : List Char) : List (List Char) := dmlGo l.length none l

/-- Lexicographic-by-code-point order on texts, Python's `<=` on `str` (ASCII). -/
def leStrB : List Char → List Char → Bool
  | [], _ => true
  | _ :: _, [] => false
  | a :: as, b :: bs => if a.toNat = b.toNat then leStrB as bs else decide (a.toNat < b.toNat)

/-- The order relation used to model Python's `sorted` on strings. -/
def strLe (a b : List Char) : Prop := leStrB a b = true

instance : DecidableRel strLe := fun a b => inferInstanceAs (Decidable (leStrB a b = true))

/--
`sorted(op.lower() for op in set(findall))`: deduplicate the cased matches,
lowercase them, sort.
-/
def dmlSorted (content : List Char) : List (List Char) :=
  List.insertionSort strLe (((dml_findall content).dedup).map lowerL)

/-- `dml_ops_cleaned = ', '.join(sorted(op.lower() for op in dml_ops))`. -/
def dml_ops_cleaned (content : List Char) : List Char :=
  joinSep (toL ", ") (dmlSorted content)

/-! ## Test-class detection: `re.compile(r'@isTest|class\s+\w+\s+.*isTest', re.IGNORECASE)`
(no DOTALL: `.` does not match a newline). -/

/-- Case-insensitive substring test: `needle` must already be lowercase. -/
def containsCI (hay needle : List Char) : Bool :=
  match hay with
  | [] => litCI needle []
  | _ :: rest => litCI needle hay || containsCI rest needle

/--
The part after `class`, by exhaustive backtracking (a Boolean regex match
succeeds iff some decomposition matches): `\s+` (nonempty, may span lines),
`\w+` (nonempty), `\s+` (nonempty, may span lines), then `.*isTest` where `.`
does not match `\n`.
-/
def classMatchTail (r : List Char) : Bool :=
  (List.range (r.length + 1)).any fun k1 =>
    decide (1 ≤ k1) && ((r.take k1).all isSpaceC) &&
      (let r1 := r.drop k1
       (List.range (r1.length + 1)).any fun k2 =>
         decide (1 ≤ k2) && ((r1.take k2).all isWordC) &&
           (let r2 := r1.drop k2
            (List.range (r2.length + 1)).any fun k3 =>
              decide (1 ≤ k3) && ((r2.take k3).all isSpaceC) &&
                (let r3 := r2.drop k3
                 (List.range (r3.length + 1)).any fun k4 =>
                   ((r3.take k4).all (fun c => !(c == '\n'))) &&
                     litCI (toL "istest") (r3.drop k4))))

/-- Scan every position for the `class\s+\w+\s+.*isTest` branch. -/
def classScanGo : List Char → Bool
  | [] => false
  | c :: rest =>
    (litCI (toL "class") (c :: rest) && classMatchTail ((c :: rest).drop 5)) || classScanGo rest

/-- `bool(test_class_pattern.search(content))`. -/
def test_class_found (content : List Char) : Bool :=
  containsCI content (toL "@istest") || classScanGo content

/-! ## Record construction (`extract_details_from_file` + `process_folder` inner loop) -/

/-- Python's `str(b).lower()` on a boolean. -/
def boolStr (b : Bool) : List Char := if b then toL "true" else toL "false"

/-- One output row of the extractor. -/
structure QueryRecord where
  class_name : List Char
  start_linenumber : Nat
  testClass : List Char
  has_binding : List Char
  soql_query : List Char
  sosl_query : List Char
  dml_operations : List Char
deriving DecidableEq, Repr

/--
The records `process_folder` produces for a single `.cls` file: one per SOQL
result, carrying the file-level SOSL, DML and test-class aggregates.
-/
def fileRecords (filename content : List Char) : List QueryRecord :=
  (soql_results content).map fun p =>
    { class_name := filename
      start_linenumber := p.2
      testClass := boolStr (test_class_found content)
      has_binding := boolStr (hasColon p.1)
      soql_query := p.1
      sosl_query := sosl_combined content
      dml_operations := dml_ops_cleaned content }

/-! ## SOQLExplainPlan.py -/

/-- Python's `s.strip(chars)` / `s.strip()`: drop characters satisfying `p` from both ends. -/
def pyStrip (p : Char → Bool) (l : List Char) : List Char :=
  ((l.dropWhile p).reverse.dropWhile p).reverse

/--
One attempted match of `re.sub`'s pattern `\s+WITH\s+[^\]]+` (IGNORECASE) at
the head of `r`, returning the consumed length.  The leading `\s+` run and the
run after `WITH` are maximal (`WITH` starts with a non-space character), and
the greedy `[^\]]+` extends to the next `]` or the end; when nothing non-`]`
follows the whitespace run after `WITH`, backtracking gives the last
whitespace character(s) to `[^\]]+`, which needs the run to have length ≥ 2 —
the total consumed length is the same in both cases.
-/
def matchWith (r : List Char) : Option Nat :=
  let s1 := wsRun r
  if s1 == 0 then none else
  let r1 := r.drop s1
  if litCI (toL "with") r1 then
    let r2 := r1.drop 4
    let s2 := wsRun r2
    if s2 == 0 then none else
    let body := (r2.drop s2).takeWhile (fun c => !(c == ']'))
    if body.length == 0 && s2 < 2 then none
    else some (s1 + 4 + s2 + body.length)
  else none

/-- `re.sub(..., '', soql)`: delete every leftmost non-overlapping match. -/
def subWithGo : Nat → List Char → List Char
  | 0, _ => []
  | _, [] => []
  | f + 1, c :: rest =>
    match matchWith (c :: rest) with
    | some L => subWithGo f ((c :: rest).drop L)
    | none => c :: subWithGo f rest

/-- The `WITH`-clause removal stage of `clean_soql`. -/
def subWith (l : List Char) : List Char := subWithGo l.length l

/--
`clean_soql`: `soql.strip('[]')`, then the `WITH` substitution, then
`.strip()`.
-/
def clean_soql (s : List Char) : List Char :=
  pyStrip isSpaceC (subWith (pyStrip isBr s))

/--
The outcome of one `requests.get` call on the explain endpoint, as seen by
`explain_soql`: the status code, the response text, and — when the body parses
as JSON — the `json.dumps(plan.get('plans', []), indent=2)` rendering
(`plansDump = none` models `response.json()` raising).
-/
structure Response where
  status : Nat
  text : List Char
  plansDump : Option (List Char)
deriving DecidableEq

/-- Decimal rendering of the status code, as in the f-string `f"Error: {...}"`. -/
def natToL (n : Nat) : List Char := (Nat.repr n).toList

/-- The pure part of `explain_soql` applied to a received response. -/
def explainResult (resp : Response) : List Char :=
  if resp.status == 200 then
    match resp.plansDump with
    | some s => s
    | none => toL "Invalid JSON in response"
  else toL "Error: " ++ natToL resp.status ++ toL " - " ++ resp.text

/--
`explain_soql`: issue the request (the `http` collaborator; `.error` models
`requests.get` raising, which the source does not catch) and post-process the
response.
-/
def explain_soql {ε : Type} (http : List Char → Except ε Response) (query : List Char) :
    Except ε (List Char) :=
  (http query).map explainResult

/-- One input CSV row, the fields `process_csv` reads. -/
structure Row where
  class_name : List Char
  soql_query : List Char
  testClass : List Char
  has_binding : List Char
deriving DecidableEq

/-- A processed row: the input row plus the two appended fields. -/
structure RowOut where
  row : Row
  modified_soql : List Char
  explain_plan : List Char
deriving DecidableEq

/-- The dispatch test of `process_csv`:
`row['testClass'].lower() == 'false' and row['has_binding'].lower() == 'false'`. -/
def dispatchCond (r : Row) : Bool :=
  lowerL r.testClass == toL "false" && lowerL r.has_binding == toL "false"

/-- The output row for a skipped input row (`explain_plan` left empty). -/
def skipOut (r : Row) : RowOut := ⟨r, clean_soql r.soql_query, []⟩

/-- The output row for a dispatched input row with explain result `e`. -/
def dispOut (r : Row) (e : List Char) : RowOut := ⟨r, clean_soql r.soql_query, e⟩

/--
`process_csv` on one row.  The second component is the log of explain queries
dispatched for this row (empty on a skip, a singleton on a dispatch); an
uncaught exception from `requests.get` surfaces as `.error`.
-/
def processRow {ε : Type} (http : List Char → Except ε Response) (r : Row) :
    Except ε (RowOut × List (List Char)) :=
  if dispatchCond r then
    (explain_soql http (clean_soql r.soql_query)).map
      (fun e => (dispOut r e, [clean_soql r.soql_query]))
  else .ok (skipOut r, [])

/--
`process_csv` over the list of rows: sequential, an uncaught exception aborts
the whole loop before any output is written.
-/
def process_csv {ε : Type} (http : List Char → Except ε Response) :
    List Row → Except ε (List RowOut × List (List Char))
  | [] => .ok ([], [])
  | r :: rs => do
    let x ← processRow http r
    let y ← process_csv http rs
    .ok (x.1 :: y.1, x.2 ++ y.2)

/-- Observable skip: the row was produced with an empty dispatch log. -/
def wasSkipped {ε : Type} : Except ε (RowOut × List (List Char)) → Bool
  | .ok (_, []) => true
  | _ => false

/-! ## Helper lemmas -/

/-- A whitespace character is not a colon. -/
lemma ne_colon_of_space {c : Char} (h : isSpaceC c = true) : (c == ':') = false := by
  cases hb : (c == ':') with
  | false => rfl
  | true =>
    have hc : c = ':' := by simpa using hb
    subst hc
    exact absurd h (by decide)

lemma hasColon_nil : hasColon [] = false := rfl

lemma hasColon_cons (c : Char) (l : List Char) :
    hasColon (c :: l) = ((c == ':') || hasColon l) := by
  simp [hasColon]

lemma hasColon_append (a b : List Char) :
    hasColon (a ++ b) = (hasColon a || hasColon b) := by
  simp [hasColon, List.any_append]

lemma hasColon_reverse (l : List Char) : hasColon l.reverse = hasColon l := by
  simp [hasColon, List.any_eq_true]

/-- Peeling one word off a separator-join, for a colon-free separator. -/
lemma hasColon_joinSep_cons {sp : List Char} (hsp : hasColon sp = false)
    (a : List Char) (rest : List (List Char)) :
    hasColon (joinSep sp (a :: rest)) = (hasColon a || hasColon (joinSep sp rest)) := by
  cases rest with
  | nil => simp [joinSep, hasColon_nil]
  | cons x ws => simp [joinSep, hasColon_append, hsp]

lemma hasColon_splitWsAux (l : List Char) :
    ∀ cur, hasColon (joinSep [' '] (splitWsAux l cur)) = (hasColon l || hasColon cur) := by
  induction l with
  | nil =>
    intro cur
    cases cur with
    | nil => simp [splitWsAux, joinSep, hasColon_nil]
    | cons c cs =>
      have hs : splitWsAux [] (c :: cs) = [(c :: cs).reverse] := by simp [splitWsAux]
      rw [hs]
      show hasColon ((c :: cs).reverse) = _
      rw [hasColon_reverse, hasColon_nil]
      cases hasColon (c :: cs) <;> rfl
  | cons c r ih =>
    intro cur
    by_cases hc : isSpaceC c = true
    · have hcc : (c == ':') = false := ne_colon_of_space hc
      cases cur with
      | nil =>
        have hs : splitWsAux (c :: r) [] = splitWsAux r [] := by simp [splitWsAux, hc]
        rw [hs, ih [], hasColon_cons, hcc, hasColon_nil]
        cases hasColon r <;> rfl
      | cons d ds =>
        have hs : splitWsAux (c :: r) (d :: ds) = (d :: ds).reverse :: splitWsAux r [] := by
          simp [splitWsAux, hc]
        rw [hs, hasColon_joinSep_cons (by decide), ih [], hasColon_reverse,
          hasColon_cons c r, hcc, hasColon_nil]
        cases hasColon r <;> cases hasColon (d :: ds) <;> rfl
    · have hs : splitWsAux (c :: r) cur = splitWsAux r (c :: cur) := by simp [splitWsAux, hc]
      rw [hs, ih (c :: cur), hasColon_cons, hasColon_cons]
      cases c == ':' <;> cases hasColon r <;> cases hasColon cur <;> rfl

/-- Whitespace normalization neither introduces nor removes `:` characters. -/
lemma hasColon_normWs (s : List Char) : hasColon (normWs s) = hasColon s := by
  unfold normWs splitWs
  rw [hasColon_splitWsAux s []]
  simp [hasColon_nil]

lemma boolStr_eq_true_iff (b : Bool) : boolStr b = toL "true" ↔ b = true := by
  cases b
  · simp [boolStr]
    decide
  · simp [boolStr]

/-- Each entry of the SOQL scan is an actual pattern match inside the scanned text. -/
lemma soqlGo_sound :
    ∀ (f : Nat) (l : List Char) (i : Nat) (p : Nat × List Char), p ∈ soqlGo f l i →
      ∃ j L, p.1 = i + j ∧ soqlMatchAt (l.drop j) = some L ∧ p.2 = (l.drop j).take L := by
  intro f
  induction f with
  | zero => intro l i p hp; simp [soqlGo] at hp
  | succ f ih =>
    intro l i p hp
    cases l with
    | nil => simp [soqlGo] at hp
    | cons c rest =>
      cases h : soqlMatchAt (c :: rest) with
      | some L =>
        rw [soqlGo, h] at hp
        rcases List.mem_cons.1 hp with hp | hp
        · exact ⟨0, L, by simp [hp], by simpa using h, by simp [hp]⟩
        · obtain ⟨j, L', h1, h2, h3⟩ := ih _ _ _ hp
          refine ⟨L + j, L', by omega, ?_, ?_⟩
          · rw [List.drop_drop] at h2
            exact h2
          · rw [List.drop_drop] at h3
            exact h3
      | none =>
        rw [soqlGo, h] at hp
        obtain ⟨j, L', h1, h2, h3⟩ := ih _ _ _ hp
        refine ⟨j + 1, L', by omega, ?_, ?_⟩
        · simpa [List.drop_succ_cons] using h2
        · simpa [List.drop_succ_cons] using h3

/-- A successful SOQL match starts at an opening bracket. -/
lemma soqlMatchAt_head {r : List Char} {L : Nat} (h : soqlMatchAt r = some L) :
    r.head? = some '[' := by
  cases r with
  | nil => simp [soqlMatchAt] at h
  | cons c rest =>
    by_cases hc : c = '['
    · simp [hc]
    · rw [soqlMatchAt, if_neg (by simpa using hc)] at h
      exact absurd h (by simp)

/-- Unpack membership in `soql_results` to an actual match of the pattern. -/
lemma soql_results_sound {content q : List Char} {ln : Nat}
    (h : (q, ln) ∈ soql_results content) :
    ∃ st L, soqlMatchAt (content.drop st) = some L ∧
      q = normWs ((content.drop st).take L) ∧ ln = (content.take st).count '\n' + 1 := by
  unfold soql_results at h
  obtain ⟨p, hp, heq⟩ := List.mem_map.1 h
  obtain ⟨j, L, h1, h2, h3⟩ := soqlGo_sound _ _ _ _ hp
  have hj : p.1 = j := by omega
  obtain ⟨hq, hln⟩ := Prod.mk.injEq .. ▸ heq
  exact ⟨j, L, h2, by rw [← hq, h3], by rw [← hln, hj]⟩

/-! ## Claim C5 -/

/--
C5 (confirmed): every record produced by `soql_results` comes from a match of
the SOQL pattern whose first character is the opening `[`, and its line number
is 1 plus the number of newline characters strictly before the match start in
the full file text.
-/
theorem soql_start_linenumber (content q : List Char) (ln : Nat)
    (h : (q, ln) ∈ soql_results content) :
    ∃ st L, soqlMatchAt (content.drop st) = some L ∧ (content.drop st).head? = some '[' ∧
      ln = (content.take st).count '\n' + 1 ∧ q = normWs ((content.drop st).take L) := by
  obtain ⟨st, L, h1, h2, h3⟩ := soql_results_sound h
  exact ⟨st, L, h1, soqlMatchAt_head h1, h3, h2⟩

/-- Witness for C5 at a concrete file text whose match begins on line 3. -/
theorem soql_start_linenumber_witness :
    ∃ st L, soqlMatchAt ((toL "x\ny\n[ SELECT a ]").drop st) = some L ∧
      ((toL "x\ny\n[ SELECT a ]").drop st).head? = some '[' ∧
      3 = ((toL "x\ny\n[ SELECT a ]").take st).count '\n' + 1 ∧
      toL "[ SELECT a ]" = normWs (((toL "x\ny\n[ SELECT a ]").drop st).take L) :=
  soql_start_linenumber (toL "x\ny\n[ SELECT a ]") (toL "[ SELECT a ]") 3 (by decide)

/-! ## Claim C6 -/

/--
C6 (confirmed): a file text with no match of the bracketed SOQL pattern
contributes no records at all, whatever its SOSL or DML content.
-/
theorem no_soql_no_records (filename content : List Char)
    (h : soqlFindIter content = []) : fileRecords filename content = [] := by
  simp [fileRecords, soql_results, h]

/--
Witness for C6: a file with a DML keyword and a SOSL query but no SOQL match
produces nonempty file-level aggregates and still zero records.
-/
theorem no_soql_no_records_witness :
    soqlFindIter (toL "insert a;\nFIND 'x' IN ALL FIELDS RETURNING K;") = [] ∧
    fileRecords (toL "N.cls") (toL "insert a;\nFIND 'x' IN ALL FIELDS RETURNING K;") = [] ∧
    sosl_combined (toL "insert a;\nFIND 'x' IN ALL FIELDS RETURNING K;") ≠ [] ∧
    dml_ops_cleaned (toL "insert a;\nFIND 'x' IN ALL FIELDS RETURNING K;") ≠ [] :=
  ⟨by decide, no_soql_no_records _ _ (by decide), by decide, by decide⟩

/-! ## Claim C7 -/

/--
C7 (confirmed): in every produced record, `has_binding` is the string `"true"`
exactly when the stored (whitespace-normalized) query text contains a `:`
character, and the stored query arises from a raw match whose `:` content is
unchanged by normalization, so the test is equivalent on the raw text.
-/
theorem has_binding_iff_colon (filename content : List Char) (r : QueryRecord)
    (h : r ∈ fileRecords filename content) :
    (r.has_binding = toL "true" ↔ hasColon r.soql_query = true) ∧
    ∃ st L, soqlMatchAt (content.drop st) = some L ∧
      r.soql_query = normWs ((content.drop st).take L) ∧
      hasColon ((content.drop st).take L) = hasColon r.soql_query := by
  unfold fileRecords at h
  obtain ⟨p, hp, heq⟩ := List.mem_map.1 h
  obtain ⟨st, L, h1, h2, h3⟩ := @soql_results_sound content p.1 p.2 (by simpa using hp)
  subst heq
  refine ⟨boolStr_eq_true_iff _, st, L, h1, by simpa using h2, ?_⟩
  simp only
  rw [h2, hasColon_normWs]

/-- Witness for C7 at a file whose single query carries a bound variable. -/
theorem has_binding_iff_colon_witness :
    ((⟨toL "T.cls", 2, toL "false", toL "true", toL "[SELECT Id FROM X WHERE a = :v]",
        [], []⟩ : QueryRecord).has_binding = toL "true" ↔
      hasColon (⟨toL "T.cls", 2, toL "false", toL "true",
        toL "[SELECT Id FROM X WHERE a = :v]", [], []⟩ : QueryRecord).soql_query = true) ∧
    ∃ st L, soqlMatchAt ((toL "A\n[SELECT Id FROM X WHERE a = :v]").drop st) = some L ∧
      (⟨toL "T.cls", 2, toL "false", toL "true", toL "[SELECT Id FROM X WHERE a = :v]",
        [], []⟩ : QueryRecord).soql_query =
        normWs (((toL "A\n[SELECT Id FROM X WHERE a = :v]").drop st).take L) ∧
      hasColon (((toL "A\n[SELECT Id FROM X WHERE a = :v]").drop st).take L) =
        hasColon (⟨toL "T.cls", 2, toL "false", toL "true",
          toL "[SELECT Id FROM X WHERE a = :v]", [], []⟩ : QueryRecord).soql_query :=
  has_binding_iff_colon (toL "T.cls") (toL "A\n[SELECT Id FROM X WHERE a = :v]") _ (by decide)

/-! ## Claim C9 -/

/--
C9 (confirmed): all records of one file share the same `sosl_query` and
`dml_operations` values, namely the file-level ` | `-join of the
whitespace-normalized SOSL matches and the file-level DML aggregate.
-/
theorem sosl_dml_file_scoped (filename content : List Char) (r₁ r₂ : QueryRecord)
    (h₁ : r₁ ∈ fileRecords filename content) (h₂ : r₂ ∈ fileRecords filename content) :
    r₁.sosl_query = r₂.sosl_query ∧ r₁.dml_operations = r₂.dml_operations ∧
    r₁.sosl_query = joinSep (toL " | ") ((sosl_findall content).map normWs) ∧
    r₁.dml_operations = dml_ops_cleaned content := by
  unfold fileRecords at h₁ h₂
  obtain ⟨p, hp, rfl⟩ := List.mem_map.1 h₁
  obtain ⟨p', hp', rfl⟩ := List.mem_map.1 h₂
  exact ⟨rfl, rfl, rfl, rfl⟩

/-- A two-query file with SOSL and DML content, for the C9 witness. -/
def exC9 : List Char :=
  toL "[SELECT a FROM B]\ninsert x;\nFIND 'q' IN ALL FIELDS RETURNING C;\n[SELECT d FROM E]"

/-- First record the extractor produces for `exC9`. -/
def recC9a : QueryRecord :=
  ⟨toL "M.cls", 1, toL "false", toL "false", toL "[SELECT a FROM B]",
    toL "FIND 'q' IN ALL FIELDS RETURNING C;", toL "insert"⟩

/-- Second record the extractor produces for `exC9`. -/
def recC9b : QueryRecord :=
  ⟨toL "M.cls", 4, toL "false", toL "false", toL "[SELECT d FROM E]",
    toL "FIND 'q' IN ALL FIELDS RETURNING C;", toL "insert"⟩

/-- Witness for C9 on a concrete two-query file. -/
theorem sosl_dml_file_scoped_witness :
    recC9a.sosl_query = recC9b.sosl_query ∧ recC9a.dml_operations = recC9b.dml_operations ∧
    recC9a.sosl_query = joinSep (toL " | ") ((sosl_findall exC9).map normWs) ∧
    recC9a.dml_operations = dml_ops_cleaned exC9 :=
  sosl_dml_file_scoped (toL "M.cls") exC9 recC9a recC9b (by decide) (by decide)

/-! ## Explainer helper lemmas -/

lemma processRow_skip {ε : Type} (http : List Char → Except ε Response) (r : Row)
    (h : dispatchCond r = false) : processRow http r = .ok (skipOut r, []) := by
  simp [processRow, h]

lemma processRow_dispatch {ε : Type} (http : List Char → Except ε Response) (r : Row)
    (h : dispatchCond r = true) :
    processRow http r = (explain_soql http (clean_soql r.soql_query)).map
      (fun e => (dispOut r e, [clean_soql r.soql_query])) := by
  simp [processRow, h]

lemma processRow_dispatch_ok (http : List Char → Response) (r : Row)
    (h : dispatchCond r = true) :
    processRow (fun q => (Except.ok (http q) : Except Unit Response)) r =
      .ok (dispOut r (explainResult (http (clean_soql r.soql_query))),
        [clean_soql r.soql_query]) := by
  rw [processRow_dispatch _ _ h]
  rfl

lemma wasSkipped_of_dispatch {ε : Type} (http : List Char → Except ε Response) (r : Row)
    (h : dispatchCond r = true) : wasSkipped (processRow http r) = false := by
  rw [processRow_dispatch _ _ h]
  unfold explain_soql
  cases http (clean_soql r.soql_query) <;> rfl

lemma wasSkipped_of_skip {ε : Type} (http : List Char → Except ε Response) (r : Row)
    (h : dispatchCond r = false) : wasSkipped (processRow http r) = true := by
  rw [processRow_skip _ _ h]
  rfl

lemma dispatchCond_iff (r : Row) :
    dispatchCond r = true ↔
      (lowerL r.testClass = toL "false" ∧ lowerL r.has_binding = toL "false") := by
  simp [dispatchCond]

/-! ## Claim C10 -/

/--
C10 (confirmed): the dispatch decision depends only on the lowercased
`testClass` and `has_binding` fields (so it is unchanged by their casing), and
any row whose `testClass` or `has_binding` does not lowercase to `"false"` is
skipped.
-/
theorem skip_decision_case_insensitive (ε : Type) (http : List Char → Except ε Response)
    (r r' r₀ : Row) (h1 : lowerL r.testClass = lowerL r'.testClass)
    (h2 : lowerL r.has_binding = lowerL r'.has_binding) :
    wasSkipped (processRow http r) = wasSkipped (processRow http r') ∧
    ((lowerL r₀.testClass = toL "false" ∧ lowerL r₀.has_binding = toL "false") ∨
      wasSkipped (processRow http r₀) = true) := by
  constructor
  · have hd : dispatchCond r = dispatchCond r' := by
      unfold dispatchCond
      rw [h1, h2]
    cases hc : dispatchCond r with
    | true => rw [wasSkipped_of_dispatch http r hc, wasSkipped_of_dispatch http r' (hd ▸ hc)]
    | false => rw [wasSkipped_of_skip http r hc, wasSkipped_of_skip http r' (hd ▸ hc)]
  · cases hc : dispatchCond r₀ with
    | true => exact Or.inl ((dispatchCond_iff r₀).1 hc)
    | false => exact Or.inr (wasSkipped_of_skip http r₀ hc)

/-- A stub HTTP collaborator answering every query with an empty plan list. -/
def httpStub : List Char → Response := fun _ => ⟨200, [], some (toL "[]")⟩

/-- Rows differing only in boolean-field casing, plus one with a non-boolean field. -/
def rowCasedA : Row := ⟨toL "A.cls", toL "[SELECT a FROM T]", toL "False", toL "FALSE"⟩

/-- Same decision data as `rowCasedA`, canonical lowercase casing. -/
def rowCasedB : Row := ⟨toL "B.cls", toL "[SELECT b FROM T]", toL "false", toL "false"⟩

/-- A row whose `testClass` field is not any casing of `"false"`. -/
def rowOdd : Row := ⟨toL "C.cls", toL "[SELECT c FROM T]", toL "weird", toL "false"⟩

/-- Witness for C10 at concrete rows and a concrete collaborator. -/
theorem skip_decision_case_insensitive_witness :
    wasSkipped (processRow (fun q => (Except.ok (httpStub q) : Except Unit Response)) rowCasedA) =
      wasSkipped (processRow (fun q => (Except.ok (httpStub q) : Except Unit Response)) rowCasedB) ∧
    ((lowerL rowOdd.testClass = toL "false" ∧ lowerL rowOdd.has_binding = toL "false") ∨
      wasSkipped (processRow (fun q => (Except.ok (httpStub q) : Except Unit Response)) rowOdd) = true) :=
  skip_decision_case_insensitive Unit _ rowCasedA rowCasedB rowOdd (by decide) (by decide)

/-! ## Claim C3 -/

/-- A row that the claim's `testClass == "true" or has_binding == "true"` test would dispatch. -/
def rowYes : Row := ⟨toL "A.cls", toL "[SELECT a FROM B]", toL "yes", toL "false"⟩

/--
C3 counterexample: `rowYes` has neither field equal to `"true"`, so the claim
says it is dispatched; the code skips it (empty `explain_plan`, no HTTP call).
-/
theorem skip_iff_equals_true_counterexample :
    processRow (fun q => (Except.ok (httpStub q) : Except Unit Response)) rowYes =
      .ok (skipOut rowYes, []) ∧
    rowYes.testClass ≠ toL "true" ∧ rowYes.has_binding ≠ toL "true" ∧
    (skipOut rowYes).explain_plan = [] := by
  refine ⟨rfl, by decide, by decide, rfl⟩

/--
C3 amended (proved): a row is skipped — `explain_plan` empty and no explain
call issued — iff it is NOT the case that both `testClass` and `has_binding`
lowercase to `"false"`; otherwise exactly one explain call is dispatched for
the cleaned query and its result is stored.
-/
theorem skip_iff_not_lower_false (http : List Char → Response) (r : Row) :
    (processRow (fun q => (Except.ok (http q) : Except Unit Response)) r =
        .ok (skipOut r, []) ↔
      ¬(lowerL r.testClass = toL "false" ∧ lowerL r.has_binding = toL "false")) ∧
    (processRow (fun q => (Except.ok (http q) : Except Unit Response)) r =
        .ok (dispOut r (explainResult (http (clean_soql r.soql_query))),
          [clean_soql r.soql_query]) ↔
      (lowerL r.testClass = toL "false" ∧ lowerL r.has_binding = toL "false")) := by
  cases hc : dispatchCond r with
  | true =>
    rw [processRow_dispatch_ok http r hc]
    constructor
    · constructor
      · intro heq
        have : ([clean_soql r.soql_query] : List (List Char)) = [] := congrArg Prod.snd (Except.ok.inj heq)
        exact absurd this (by simp)
      · intro hn
        exact absurd ((dispatchCond_iff r).1 hc) hn
    · simp [(dispatchCond_iff r).1 hc]
  | false =>
    rw [processRow_skip _ _ hc]
    have hnc : ¬(lowerL r.testClass = toL "false" ∧ lowerL r.has_binding = toL "false") := by
      intro hcc
      rw [(dispatchCond_iff r).2 hcc] at hc
      exact absurd hc (by decide)
    constructor
    · simp [hnc]
    · constructor
      · intro heq
        have : ([] : List (List Char)) = [clean_soql r.soql_query] := congrArg Prod.snd (Except.ok.inj heq)
        exact absurd this (by simp)
      · intro hcc
        exact absurd hcc hnc

/-! ## Claim C4 -/

/-- Unfolding `process_csv` on a row whose processing and whose tail both succeed. -/
lemma process_csv_cons_ok {ε : Type} (http : List Char → Except ε Response) (r : Row)
    (rs : List Row) {o : RowOut} {lg : List (List Char)} {outs : List RowOut}
    {log : List (List Char)} (h1 : processRow http r = .ok (o, lg))
    (h2 : process_csv http rs = .ok (outs, log)) :
    process_csv http (r :: rs) = .ok (o :: outs, lg ++ log) := by
  simp only [process_csv, h1, h2]
  rfl

/-- The explain post-processing never yields an empty string when plan dumps are nonempty. -/
lemma explainResult_ne_nil (resp : Response)
    (h : ∀ s, resp.plansDump = some s → s ≠ []) : explainResult resp ≠ [] := by
  unfold explainResult
  cases hs : resp.status == 200 with
  | true =>
    cases hp : resp.plansDump with
    | some s => simpa using h s hp
    | none =>
      simp
      decide
  | false =>
    simp
    intro hEq
    exact absurd hEq (by decide)

/--
C4 amended (proved): when every issued request returns an HTTP response (no
transport exception), processing completes for all rows — non-200 responses
and malformed JSON become descriptive strings — and each dispatched row ends
with a nonempty `explain_plan` while each skipped row's stays empty.
-/
theorem http_failures_recovered (http : List Char → Response)
    (hd : ∀ q s, (http q).plansDump = some s → s ≠ []) (rows : List Row) :
    ∃ outs log,
      process_csv (fun q => (Except.ok (http q) : Except Unit Response)) rows =
        .ok (outs, log) ∧ outs.length = rows.length ∧
      List.Forall₂ (fun (r : Row) (o : RowOut) =>
        (dispatchCond r = true → o.explain_plan ≠ []) ∧
        (dispatchCond r = false → o.explain_plan = [])) rows outs := by
  induction rows with
  | nil => exact ⟨[], [], rfl, rfl, List.Forall₂.nil⟩
  | cons r rs ih =>
    obtain ⟨outs, log, hp, hlen, hf⟩ := ih
    cases hc : dispatchCond r with
    | false =>
      refine ⟨skipOut r :: outs, [] ++ log,
        process_csv_cons_ok _ _ _ (processRow_skip _ _ hc) hp, by simp [hlen], ?_⟩
      exact List.Forall₂.cons ⟨fun h => absurd h (by simp [hc]), fun _ => rfl⟩ hf
    | true =>
      refine ⟨dispOut r (explainResult (http (clean_soql r.soql_query))) :: outs,
        [clean_soql r.soql_query] ++ log,
        process_csv_cons_ok _ _ _ (processRow_dispatch_ok http r hc) hp, by simp [hlen], ?_⟩
      refine List.Forall₂.cons ⟨fun _ => ?_, fun h => absurd h (by simp [hc])⟩ hf
      exact explainResult_ne_nil _ (fun s hs => hd _ s hs)

/-- A failing collaborator answering every query with a 500 and a plain error body. -/
def httpFail : List Char → Response := fun _ => ⟨500, toL "boom", none⟩

/-- A second dispatchable row for the C4 theorems. -/
def rowDisp2 : Row := ⟨toL "D.cls", toL "[SELECT d FROM E]", toL "false", toL "false"⟩

/-- Witness for C4: two dispatchable rows against an always-500 collaborator. -/
theorem http_failures_recovered_witness :
    (∀ q s, (httpFail q).plansDump = some s → s ≠ []) ∧
    ∃ outs log,
      process_csv (fun q => (Except.ok (httpFail q) : Except Unit Response))
        [rowCasedB, rowDisp2] = .ok (outs, log) ∧
      outs.length = [rowCasedB, rowDisp2].length ∧
      List.Forall₂ (fun (r : Row) (o : RowOut) =>
        (dispatchCond r = true → o.explain_plan ≠ []) ∧
        (dispatchCond r = false → o.explain_plan = [])) [rowCasedB, rowDisp2] outs :=
  ⟨(fun _ _ hs => nomatch hs),
    http_failures_recovered httpFail (fun _ _ hs => nomatch hs) [rowCasedB, rowDisp2]⟩

/-- A transport layer whose every request raises (models `requests.get` raising). -/
def httpRaise : List Char → Except Unit Response := fun _ => .error ()

/--
C4 counterexample: a transport-level failure while issuing the request for the
first (dispatchable) row is not caught — the whole run aborts with the
exception, the second row is never processed and no output rows exist, contrary
to the claim that any failure raised while issuing the request is recovered
locally and processing continues.
-/
theorem transport_exception_aborts_counterexample :
    process_csv httpRaise [rowCasedB, rowDisp2] = .error () ∧
    dispatchCond rowCasedB = true ∧ dispatchCond rowDisp2 = true :=
  ⟨rfl, by decide, by decide⟩

/-! ## Order lemmas for Python string sorting -/

lemma leStrB_total : ∀ a b : List Char, leStrB a b = true ∨ leStrB b a = true := by
  intro a
  induction a with
  | nil => intro b; left; rfl
  | cons x xs ih =>
    intro b
    cases b with
    | nil => right; rfl
    | cons y ys =>
      by_cases h : x.toNat = y.toNat
      · rcases ih ys with h1 | h1
        · left; simp [leStrB, h, h1]
        · right; simp [leStrB, h.symm, h1]
      · rcases Nat.lt_or_ge x.toNat y.toNat with hl | hge
        · left; simp [leStrB, h, hl]
        · have hne : y.toNat ≠ x.toNat := fun hy => h hy.symm
          have hgt : y.toNat < x.toNat := by omega
          right
          simp [leStrB, hne, hgt]

lemma leStrB_trans : ∀ a b c : List Char,
    leStrB a b = true → leStrB b c = true → leStrB a c = true := by
  intro a
  induction a with
  | nil => intros; rfl
  | cons x xs ih =>
    intro b c hab hbc
    cases b with
    | nil => simp [leStrB] at hab
    | cons y ys =>
      cases c with
      | nil => simp [leStrB] at hbc
      | cons z zs =>
        simp only [leStrB] at hab hbc ⊢
        split_ifs at hab hbc ⊢ with h1 h2 h3
        all_goals simp only [decide_eq_true_eq] at *
        · exact ih ys zs hab hbc
        · omega
        · omega
        · omega
        · omega
        · omega
        · omega
        · omega

instance : IsTotal (List Char) strLe := ⟨leStrB_total⟩

instance : IsTrans (List Char) strLe := ⟨leStrB_trans⟩

/-! ## Claim C1 -/

/--
C1 counterexample: the code deduplicates the cased matches *before*
lowercasing, so the text `Insert INSERT delete` yields
`"delete, insert, insert"` and not the claimed `"delete, insert"`.
-/
theorem dml_dedup_before_lower_counterexample :
    dml_ops_cleaned (toL "Insert INSERT delete") = toL "delete, insert, insert" ∧
    dml_ops_cleaned (toL "Insert INSERT delete") ≠ toL "delete, insert" := by
  exact ⟨by decide, by decide⟩

/--
C1 amended (proved): `dml_operations` is the comma-separated join of the
sorted, lowercased members of the *set of distinct cased whole-word matches*:
the output list is sorted, an entry appears iff some whole-word occurrence
lowercases to it, and each entry is repeated once per distinct casing present
in the file.
-/
theorem dml_ops_sorted_lower_of_dedup (content : List Char) :
    dml_ops_cleaned content = joinSep (toL ", ") (dmlSorted content) ∧
    (dmlSorted content).Sorted strLe ∧
    (∀ s, s ∈ dmlSorted content ↔ ∃ m ∈ dml_findall content, lowerL m = s) ∧
    (∀ s, (dmlSorted content).count s =
      ((dml_findall content).dedup.filter (fun m => lowerL m == s)).length) := by
  refine ⟨rfl, List.sorted_insertionSort strLe _, fun s => ?_, fun s => ?_⟩
  · unfold dmlSorted
    rw [(List.perm_insertionSort strLe _).mem_iff]
    simp [List.mem_map, List.mem_dedup]
  · unfold dmlSorted
    rw [List.count_eq_countP,
      List.Perm.countP_eq _ (List.perm_insertionSort strLe _),
      List.countP_map, ← List.countP_eq_length_filter]
    rfl

/-! ## Claim C2 -/

/--
Modelled from the claim's words (not from the source): strip at most one
leading `[` and at most one trailing `]`, then remove `WITH` segments and trim
whitespace.
-/
def stripOneBrackets (l : List Char) : List Char :=
  let l1 := match l with
    | '[' :: r => r
    | _ => l
  if l1.getLast? == some ']' then l1.dropLast else l1

/-- The claim's version of the normalizer, differing from the source only in the strip stage. -/
def claim_clean_soql (s : List Char) : List Char :=
  pyStrip isSpaceC (subWith (stripOneBrackets s))

/--
C2 counterexample: on `[[SELECT Id FROM Account]]` the code's `strip('[]')`
removes *all* edge brackets, while the claimed at-most-one stripping would
leave `[SELECT Id FROM Account]`.
-/
theorem strip_single_bracket_counterexample :
    clean_soql (toL "[[SELECT Id FROM Account]]") = toL "SELECT Id FROM Account" ∧
    claim_clean_soql (toL "[[SELECT Id FROM Account]]") = toL "[SELECT Id FROM Account]" ∧
    clean_soql (toL "[[SELECT Id FROM Account]]") ≠
      claim_clean_soql (toL "[[SELECT Id FROM Account]]") :=
  ⟨by decide, by decide, by decide⟩

/-- The head of `dropWhile p` never satisfies `p`. -/
lemma dropWhile_head?_nonp (p : Char → Bool) (l : List Char) :
    Option.all (fun c => !(p c)) (l.dropWhile p).head? = true := by
  induction l with
  | nil => rfl
  | cons c r ih =>
    by_cases h : p c = true
    · simpa [List.dropWhile_cons, h] using ih
    · have h' : p c = false := by simpa using h
      simp [List.dropWhile_cons, h']

/-- Any list is its reversed-strip core followed by its trailing `p`-run. -/
lemma rev_strip_split (p : Char → Bool) (X : List Char) :
    X = (X.reverse.dropWhile p).reverse ++ (X.reverse.takeWhile p).reverse := by
  rw [← List.reverse_append, List.takeWhile_append_dropWhile, List.reverse_reverse]

/-- Python's `strip` removes exactly a leading and a trailing run of stripped characters. -/
lemma pyStrip_decomp (p : Char → Bool) (l : List Char) :
    ∃ a b, l = a ++ pyStrip p l ++ b ∧ a.all p = true ∧ b.all p = true := by
  refine ⟨l.takeWhile p, ((l.dropWhile p).reverse.takeWhile p).reverse, ?_, ?_, ?_⟩
  · conv_lhs => rw [← List.takeWhile_append_dropWhile p l,
      rev_strip_split p (l.dropWhile p)]
    simp [pyStrip, List.append_assoc]
  · rw [List.all_eq_true]
    intro x hx
    exact List.mem_takeWhile_imp hx
  · rw [List.all_eq_true]
    intro x hx
    rw [List.mem_reverse] at hx
    exact List.mem_takeWhile_imp hx

/-- The strip is maximal on the left: the result never starts with a stripped character. -/
lemma pyStrip_head (p : Char → Bool) (l : List Char) :
    Option.all (fun c => !(p c)) (pyStrip p l).head? = true := by
  cases hs : pyStrip p l with
  | nil => rfl
  | cons c cs =>
    have hs' : ((l.dropWhile p).reverse.dropWhile p).reverse = c :: cs := hs
    have hx : l.dropWhile p = c :: (cs ++ ((l.dropWhile p).reverse.takeWhile p).reverse) := by
      conv_lhs => rw [rev_strip_split p (l.dropWhile p)]
      rw [hs']
      simp
    have hh := dropWhile_head?_nonp p l
    rw [hx] at hh
    simpa using hh

/-- The strip is maximal on the right: the result never ends with a stripped character. -/
lemma pyStrip_getLast (p : Char → Bool) (l : List Char) :
    Option.all (fun c => !(p c)) (pyStrip p l).getLast? = true := by
  unfold pyStrip
  rw [List.getLast?_reverse]
  exact dropWhile_head?_nonp p _

/--
C2 amended (proved): `clean_soql` strips *all* leading and trailing characters
from the set `\x7b [, ] \x7d` (Python `strip('[]')`, both bracket characters on
both ends), removes the `WITH` segments, and trims surrounding whitespace; the
claimed example still normalizes to `SELECT Id FROM Account`.
-/
theorem clean_soql_strips_all_brackets :
    clean_soql (toL "[SELECT Id FROM Account WITH SECURITY_ENFORCED]") =
      toL "SELECT Id FROM Account" ∧
    (∀ s : List Char, clean_soql s = pyStrip isSpaceC (subWith (pyStrip isBr s))) ∧
    (∀ s : List Char, ∃ a b : List Char,
      s = a ++ pyStrip isBr s ++ b ∧ a.all isBr = true ∧ b.all isBr = true ∧
      Option.all (fun c => !(isBr c)) (pyStrip isBr s).head? = true ∧
      Option.all (fun c => !(isBr c)) (pyStrip isBr s).getLast? = true) := by
  refine ⟨by decide, fun s => rfl, fun s => ?_⟩
  obtain ⟨a, b, h1, h2, h3⟩ := pyStrip_decomp isBr s
  exact ⟨a, b, h1, h2, h3, pyStrip_head isBr s, pyStrip_getLast isBr s⟩

/-! ## Claim C8 -/

/-- A case-insensitive substring occurrence is a split of the text. -/
lemma containsCI_iff (needle : List Char) :
    ∀ hay, containsCI hay needle = true ↔
      ∃ u v, hay = u ++ v ∧ litCI needle v = true := by
  intro hay
  induction hay with
  | nil =>
    constructor
    · intro h
      exact ⟨[], [], rfl, h⟩
    · rintro ⟨u, v, he, hl⟩
      obtain ⟨rfl, rfl⟩ := List.append_eq_nil.1 he.symm
      exact hl
  | cons c rest ih =>
    constructor
    · intro h
      rw [containsCI, Bool.or_eq_true] at h
      rcases h with h | h
      · exact ⟨[], c :: rest, rfl, h⟩
      · obtain ⟨u, v, he, hl⟩ := ih.1 h
        exact ⟨c :: u, v, by rw [he]; rfl, hl⟩
    · rintro ⟨u, v, he, hl⟩
      rw [containsCI, Bool.or_eq_true]
      cases u with
      | nil =>
        rw [List.nil_append] at he
        subst he
        exact Or.inl hl
      | cons x xs =>
        rw [List.cons_append] at he
        injection he with h1 h2
        subst h1
        exact Or.inr (ih.2 ⟨xs, v, h2, hl⟩)

/-- The class-branch scan succeeds iff some suffix starts a class-branch match. -/
lemma classScanGo_iff :
    ∀ l, classScanGo l = true ↔
      ∃ u v, l = u ++ v ∧ (litCI (toL "class") v && classMatchTail (v.drop 5)) = true := by
  intro l
  induction l with
  | nil =>
    constructor
    · intro h
      exact absurd h (by decide)
    · rintro ⟨u, v, he, hl⟩
      obtain ⟨rfl, rfl⟩ := List.append_eq_nil.1 he.symm
      exact absurd hl (by decide)
  | cons c rest ih =>
    constructor
    · intro h
      rw [classScanGo, Bool.or_eq_true] at h
      rcases h with h | h
      · exact ⟨[], c :: rest, rfl, h⟩
      · obtain ⟨u, v, he, hl⟩ := ih.1 h
        exact ⟨c :: u, v, by rw [he]; rfl, hl⟩
    · rintro ⟨u, v, he, hl⟩
      rw [classScanGo, Bool.or_eq_true]
      cases u with
      | nil =>
        rw [List.nil_append] at he
        subst he
        exact Or.inl hl
      | cons x xs =>
        rw [List.cons_append] at he
        injection he with h1 h2
        subst h1
        exact Or.inr (ih.2 ⟨xs, v, h2, hl⟩)

/-- A nonempty `take` taken within bounds. -/
lemma take_ne_nil_of_le {k : Nat} {r : List Char} (h1 : 1 ≤ k) (h2 : k ≤ r.length) :
    r.take k ≠ [] := by
  intro hnil
  have hlen := congrArg List.length hnil
  rw [List.length_take] at hlen
  simp only [List.length_nil] at hlen
  omega

/--
The backtracking tail match after `class` succeeds iff the suffix decomposes
as nonempty whitespace, a nonempty word, nonempty whitespace, a newline-free
stretch, and a case-insensitive `isTest`.
-/
lemma classMatchTail_iff (r : List Char) :
    classMatchTail r = true ↔
      ∃ s1 w s2 m t rest,
        r = s1 ++ (w ++ (s2 ++ (m ++ (t ++ rest)))) ∧
        s1 ≠ [] ∧ s1.all isSpaceC = true ∧
        w ≠ [] ∧ w.all isWordC = true ∧
        s2 ≠ [] ∧ s2.all isSpaceC = true ∧
        m.all (fun c => !(c == '\n')) = true ∧
        lowerL t = toL "istest" := by
  constructor
  · intro h
    unfold classMatchTail at h
    simp only [List.any_eq_true, List.mem_range, Bool.and_eq_true, decide_eq_true_eq,
      litCI, beq_iff_eq] at h
    obtain ⟨k1, hk1, ⟨h1le, h1all⟩, k2, hk2, ⟨h2le, h2all⟩, k3, hk3, ⟨h3le, h3all⟩,
      k4, hk4, h4all, h4lit⟩ := h
    refine ⟨r.take k1, (r.drop k1).take k2, ((r.drop k1).drop k2).take k3,
      (((r.drop k1).drop k2).drop k3).take k4,
      ((((r.drop k1).drop k2).drop k3).drop k4).take (toL "istest").length,
      ((((r.drop k1).drop k2).drop k3).drop k4).drop (toL "istest").length,
      ?_, ?_, h1all, ?_, h2all, ?_, h3all, h4all, h4lit⟩
    · simp only [List.take_append_drop]
    · exact take_ne_nil_of_le h1le (by omega)
    · exact take_ne_nil_of_le h2le (by omega)
    · exact take_ne_nil_of_le h3le (by omega)
  · rintro ⟨s1, w, s2, m, t, rest, he, hs1ne, hs1, hwne, hw, hs2ne, hs2, hm, ht⟩
    subst he
    have hlt : t.length = (toL "istest").length := by
      have := congrArg List.length ht
      simpa [lowerL] using this
    unfold classMatchTail
    simp only [List.any_eq_true, List.mem_range, Bool.and_eq_true, decide_eq_true_eq,
      litCI, beq_iff_eq]
    refine ⟨s1.length, by simp; omega, ⟨List.length_pos.2 hs1ne, by rw [List.take_left]; exact hs1⟩, ?_⟩
    rw [List.drop_left]
    refine ⟨w.length, by simp; omega, ⟨List.length_pos.2 hwne, by rw [List.take_left]; exact hw⟩, ?_⟩
    rw [List.drop_left]
    refine ⟨s2.length, by simp; omega, ⟨List.length_pos.2 hs2ne, by rw [List.take_left]; exact hs2⟩, ?_⟩
    rw [List.drop_left]
    refine ⟨m.length, by simp; omega, by rw [List.take_left]; exact hm, ?_⟩
    rw [List.drop_left, List.take_left' hlt]
    exact ht

/-- Case-insensitive occurrence of `needle` at offset `i` (`needle` pre-lowered). -/
def occursAtCI (l : List Char) (i : Nat) (needle : List Char) : Bool :=
  lowerL ((l.drop i).take needle.length) == needle

/--
Modelled from the claim's words (not from the source): the text contains
`@isTest` case-insensitively, or contains `isTest` (case-insensitively)
anywhere between an occurrence of the keyword `class` and a later class body
opening brace — with no restriction about newlines in between.
-/
def claimC8Spec (l : List Char) : Prop :=
  containsCI l (toL "@istest") = true ∨
  ∃ i j k, occursAtCI l i (toL "class") = true ∧ occursAtCI l j (toL "istest") = true ∧
    i + 5 ≤ j ∧ j + 6 ≤ k ∧ l[k]? = some '\x7b'

/-- A class declaration whose `isTest` marker sits after a newline-separated token. -/
def exC8 : List Char := toL "class Foo x\nisTest \x7b"

/--
C8 counterexample: in `exC8` the substring `isTest` lies between `class` and
the body-opening brace, separated from the class keyword by a newline, so the
claim says the file is detected as a test class; the code's regex (compiled
without DOTALL, so `.*` cannot cross the newline) does not match, and the
detector returns false.
-/
theorem test_class_newline_counterexample :
    claimC8Spec exC8 ∧ test_class_found exC8 = false :=
  ⟨Or.inr ⟨0, 12, 19, by decide, by decide, by decide, by decide, by decide⟩, by decide⟩

/--
C8 amended (proved): the detector fires iff the text contains `@isTest`
case-insensitively anywhere, or contains (case-insensitively) `class`,
nonempty whitespace (newlines allowed), a nonempty word, nonempty whitespace
(newlines allowed), and then `isTest` preceded only by newline-free material:
because the pattern is compiled without DOTALL, the stretch between the
whitespace after the class name and `isTest` cannot contain a newline, so an
`isTest` marker separated from the class name's trailing whitespace by a
newline-crossing stretch is not detected.
-/
theorem test_class_regex_characterization (l : List Char) :
    test_class_found l = true ↔
      ((∃ u v, l = u ++ v ∧ lowerL (v.take 7) = toL "@istest") ∨
       (∃ u c5 s1 w s2 m t rest,
          l = u ++ (c5 ++ (s1 ++ (w ++ (s2 ++ (m ++ (t ++ rest)))))) ∧
          lowerL c5 = toL "class" ∧
          s1 ≠ [] ∧ s1.all isSpaceC = true ∧
          w ≠ [] ∧ w.all isWordC = true ∧
          s2 ≠ [] ∧ s2.all isSpaceC = true ∧
          m.all (fun c => !(c == '\n')) = true ∧
          lowerL t = toL "istest")) := by
  unfold test_class_found
  rw [Bool.or_eq_true]
  constructor
  · rintro (h | h)
    · left
      obtain ⟨u, v, he, hl⟩ := (containsCI_iff _ _).1 h
      refine ⟨u, v, he, ?_⟩
      simpa [litCI] using hl
    · right
      obtain ⟨u, v, he, hl⟩ := (classScanGo_iff _).1 h
      rw [Bool.and_eq_true] at hl
      obtain ⟨hcls, htail⟩ := hl
      obtain ⟨s1, w, s2, m, t, rest, hd, hs1ne, hs1, hwne, hw, hs2ne, hs2, hm, ht⟩ :=
        (classMatchTail_iff _).1 htail
      have hc5 : lowerL (v.take 5) = toL "class" := by simpa [litCI] using hcls
      refine ⟨u, v.take 5, s1, w, s2, m, t, rest, ?_, hc5,
        hs1ne, hs1, hwne, hw, hs2ne, hs2, hm, ht⟩
      calc l = u ++ v := he
        _ = u ++ (v.take 5 ++ v.drop 5) := by rw [List.take_append_drop]
        _ = u ++ (v.take 5 ++ (s1 ++ (w ++ (s2 ++ (m ++ (t ++ rest)))))) := by rw [hd]
  · rintro (⟨u, v, he, hl⟩ | ⟨u, c5, s1, w, s2, m, t, rest, he, hc5,
      hs1ne, hs1, hwne, hw, hs2ne, hs2, hm, ht⟩)
    · left
      refine (containsCI_iff _ _).2 ⟨u, v, he, ?_⟩
      simpa [litCI] using hl
    · right
      apply (classScanGo_iff _).2
      have hc5len : c5.length = 5 := by
        have hlen := congrArg List.length hc5
        simpa [lowerL] using hlen
      refine ⟨u, c5 ++ (s1 ++ (w ++ (s2 ++ (m ++ (t ++ rest))))), he, ?_⟩
      rw [Bool.and_eq_true]
      constructor
      · simp only [litCI, beq_iff_eq]
        rw [show (toL "class").length = 5 from rfl, List.take_left' hc5len]
        exact hc5
      · rw [List.drop_left' hc5len]
        exact (classMatchTail_iff _).2 ⟨s1, w, s2, m, t, rest, rfl,
          hs1ne, hs1, hwne, hw, hs2ne, hs2, hm, ht⟩

end ApexUtils




